import Mathlib

/-!
Verification development for the minecraft-disc-bot repository
(src/app.py and src/utils.py).  The definitions below are a shallow
embedding of the pure computational content of the functions named in
the claims: the remote transport (ssh subprocess calls), the on-disk
cache and the chat layer are modelled by explicit environment values
describing the outcome of each remote read, and every function that
appends to a caller-supplied error accumulator is modelled as returning
the list of error entries it appends.
-/

/-! ## Error entries (the tuples appended to the `errors` lists)

Embeds the error values of src/app.py: each entry is a Python tuple
`(function_name, message, error)` where `error` is either a raw string
(a leaf) or a nested list of such tuples (a node). -/

inductive Err where
  | leaf (function : String) (message : String) (detail : String)
  | node (function : String) (message : String) (children : List Err)

/-- Embeds `"\t" * indent` from `build_errors_string` (src/app.py:112). -/
def indentStr (indent : Nat) : String :=
  String.mk (List.replicate indent '\t')

/-- Embeds `build_errors_string(errors, indent)` (src/app.py:107-120):
for each tuple it emits `indentation + function + ': "' + message + '"\n'`,
then, if the third component is a non-empty string, the line
`indentation + error + '\n'` (at the same indent), and otherwise the
recursive rendering of the child list at `indent + 1`. -/
def build_errors_string : List Err → Nat → String
  | [], _ => ""
  | Err.leaf f m d :: rest, indent =>
    indentStr indent ++ f ++ ": \"" ++ m ++ "\"\n"
      ++ (if d = "" then "" else indentStr indent ++ d ++ "\n")
      ++ build_errors_string rest indent
  | Err.node f m children :: rest, indent =>
    indentStr indent ++ f ++ ": \"" ++ m ++ "\"\n"
      ++ build_errors_string children (indent + 1)
      ++ build_errors_string rest indent

/-! ## Substring search

Embeds the Python expression `string in line` (substring containment)
used in `search_string_in_logs` (src/app.py:355). -/

/-- Returns true when `needle` occurs as a contiguous run inside `hay`. -/
def strContainsAux (needle : List Char) : List Char → Bool
  | [] => needle.isEmpty
  | c :: cs => needle.isPrefixOf (c :: cs) || strContainsAux needle cs

/-- Embeds Python `string in line`. -/
def strContains (line string : String) : Bool :=
  strContainsAux string.data line.data

/-- Accumulator loop for `pySplitChar`. -/
def splitOnCharAux (sep : Char) : List Char → List Char → List String
  | [], acc => [String.mk acc.reverse]
  | c :: cs, acc =>
    if c = sep then String.mk acc.reverse :: splitOnCharAux sep cs []
    else splitOnCharAux sep cs (c :: acc)

/-- Embeds Python `s.split(sep)` for a one-character separator (the
only uses in the source are `split('\n')` and `split(']')`): the empty
string splits to `[""]`, and a trailing separator yields a trailing
empty piece. -/
def pySplitChar (s : String) (sep : Char) : List String :=
  splitOnCharAux sep s.data []

/-! ## The remote log environment

Embeds the outcomes of the remote ssh reads done by `list_log_files`
and `read_log_file` (src/app.py:267-327).  `Sum.inl stderr` is a
non-zero exit status carrying the stderr text; `Sum.inr` is success.
The process-lifetime cache only memoizes these reads, so a fixed
environment models an unchanged remote state. -/

structure LogFile where
  path : String
  content : String ⊕ String

structure LogEnv where
  listing : String ⊕ List LogFile

/-- Embeds `read_log_file(file_path, errors)` (src/app.py:267-293): on a
failed read it appends one error tuple and returns `""`, otherwise it
returns the decoded text. -/
def read_log_file (f : LogFile) : String × List Err :=
  match f.content with
  | Sum.inl stderr =>
    ("", [Err.leaf "read_log_file" "SSH Command Error when reading log file"
      ("Error when reading " ++ f.path ++ ": " ++ stderr)])
  | Sum.inr text => (text, [])

/-- Embeds `list_log_files(sort_by="date", errors)` (src/app.py:295-327):
on a failed listing it appends one error tuple and returns `[]`,
otherwise the ordered file list. -/
def list_log_files (env : LogEnv) : List LogFile × List Err :=
  match env.listing with
  | Sum.inl stderr =>
    ([], [Err.leaf "list_log_files" "SSH Command Error when listing log files"
      ("Error: " ++ stderr)])
  | Sum.inr files => (files, [])

/-- Embeds the break condition of `search_string_in_logs`
(src/app.py:344 and 357):
`(k != -1 and len(matched_lines) >= k) or (max_search_lines != -1 and line_count >= max_search_lines)`. -/
def stopCond (k maxL : Int) (matchedLen : Nat) (cnt : Int) : Bool :=
  (decide (k ≠ -1) && decide ((matchedLen : Int) ≥ k))
    || (decide (maxL ≠ -1) && decide (cnt ≥ maxL))

/-- Embeds the inner loop of `search_string_in_logs` (src/app.py:353-358):
lines of one file are scanned last-line-first; each line increments the
counter, a substring hit appends the line, and the loop breaks as soon
as the break condition holds. -/
def scanFile (string : String) (k maxL : Int) :
    List String → List String → Int → List String × Int
  | [], matched, cnt => (matched, cnt)
  | line :: restLines, matched, cnt =>
    let cnt' := cnt + 1
    let matched' := if strContains line string then matched ++ [line] else matched
    if stopCond k maxL matched'.length cnt' then (matched', cnt')
    else scanFile string k maxL restLines matched' cnt'

/-- Embeds the outer loop of `search_string_in_logs` (src/app.py:343-358):
files are visited in listing order, the break condition is re-checked
before each file, a failed read aborts with `([], -1)` and a wrapping
error, and otherwise the reversed line list of the file is scanned. -/
def searchFiles (string : String) (k maxL : Int) :
    List LogFile → List String → Int → (List String × Int) × List Err
  | [], matched, cnt => ((matched, cnt), [])
  | f :: rest, matched, cnt =>
    if stopCond k maxL matched.length cnt then ((matched, cnt), [])
    else
      match read_log_file f with
      | (text, []) =>
        let st := scanFile string k maxL ((pySplitChar text '\n').reverse) matched cnt
        searchFiles string k maxL rest st.1 st.2
      | (_, e :: es) =>
        (([], -1), [Err.node "search_string_in_logs" "Failed to read log file" (e :: es)])

/-- Embeds `search_string_in_logs(string, k, max_search_lines, errors)`
(src/app.py:329-359).  A failed or empty listing aborts with
`([], -1)` and a wrapping error tuple; otherwise the files are scanned. -/
def search_string_in_logs (string : String) (k maxL : Int) (env : LogEnv) :
    (List String × Int) × List Err :=
  match list_log_files env with
  | ([], listErrs) =>
    (([], -1), [Err.node "search_string_in_logs" "Failed to list log files" listErrs])
  | (f :: rest, _) => searchFiles string k maxL (f :: rest) [] 0

/-- Embeds the Python slice `s[1:-4]` applied to the bracketed log
prefix in `last_time_joined` (src/app.py:377 and 390). -/
def sliceBracketTime (s : String) : String :=
  String.mk ((s.data.drop 1).take (s.data.length - 5))

/-- Embeds `last_time_joined(username, errors)` (src/app.py:361-392):
search for `"<name> joined the game"` with `k=1`; on a search error
return `("", "")`, on zero matches append a "No joined pattern found"
entry and return `("No data", "No data")`; otherwise slice the joined
timestamp, search for `"<name> left the game"` with `k=1` and
`max_search_lines` equal to the joined scan count, and return
`(joined, "Error")`, `(joined, "Still playing")` or both sliced
timestamps accordingly. -/
def last_time_joined (username : String) (env : LogEnv) :
    (String × String) × List Err :=
  match search_string_in_logs (username ++ " joined the game") 1 (-1) env with
  | (_, e :: es) =>
    (("", ""), [Err.node "last_time_joined" "Error searching for joined pattern" (e :: es)])
  | (([], _), []) =>
    (("No data", "No data"),
      [Err.leaf "last_time_joined" "No joined pattern found"
        ("No log lines found with pattern: " ++ username ++ " joined the game")])
  | ((jl0 :: _, joined_line_count), []) =>
    let joined_time := sliceBracketTime ((pySplitChar jl0 ']').headD "")
    match search_string_in_logs (username ++ " left the game") 1 joined_line_count env with
    | (_, e :: es) =>
      ((joined_time, "Error"),
        [Err.node "last_time_joined" "Error searching for left pattern" (e :: es)])
    | (([], _), []) => ((joined_time, "Still playing"), [])
    | ((ll0 :: _, _), []) =>
      ((joined_time, sliceBracketTime ((pySplitChar ll0 ']').headD "")), [])

/-! ## JSON object extraction (src/utils.py:47-63) -/

/-- Embeds the loop of `extract_json_objects`: `text` is the full input,
the second argument is the not-yet-visited suffix, `i` the current
index, `open_b` the bracket counter (a Python int, so it may go
negative), `start` the recorded start index and `acc` the accumulated
spans `text[start:i+1]`. -/
def ejoGo (text : List Char) : List Char → Nat → Int → Nat → List String → List String
  | [], _, _, _, acc => acc
  | c :: cs, i, open_b, start, acc =>
    if c = '{' then
      ejoGo text cs (i + 1) (open_b + 1) (if open_b = 0 then i else start) acc
    else if c = '}' then
      let ob' := open_b - 1
      if ob' = 0 then
        ejoGo text cs (i + 1) ob' start
          (acc ++ [String.mk ((text.drop start).take (i + 1 - start))])
      else
        ejoGo text cs (i + 1) ob' start acc
    else
      ejoGo text cs (i + 1) open_b start acc

/-- Embeds `extract_json_objects(text)` (src/utils.py:47-63). -/
def extract_json_objects (text : String) : List String :=
  ejoGo text.data text.data 0 0 0 []

/-! ## Timestamp parsing and duration formatting (src/utils.py:65-88) -/

structure PyDateTime where
  year : Nat
  month : Nat
  day : Nat
  hour : Nat
  minute : Nat
  second : Nat
deriving DecidableEq

def digitVal (c : Char) : Option Nat :=
  if c.isDigit then some (c.toNat - 48) else none

def twoDigits (a b : Char) : Option Nat := do
  let x ← digitVal a
  let y ← digitVal b
  pure (10 * x + y)

def fourDigits (a b c d : Char) : Option Nat := do
  let x ← twoDigits a b
  let y ← twoDigits c d
  pure (100 * x + y)

def month_abbrevs : List (String × Nat) :=
  [("Jan", 1), ("Feb", 2), ("Mar", 3), ("Apr", 4), ("May", 5), ("Jun", 6),
   ("Jul", 7), ("Aug", 8), ("Sep", 9), ("Oct", 10), ("Nov", 11), ("Dec", 12)]

def monthNum (s : String) : Option Nat :=
  month_abbrevs.lookup s

/-- Embeds `parse_log_time(time_str)` (src/utils.py:65-66), i.e.
`datetime.strptime(time_str, "%d%b%Y %H:%M:%S")` on the zero-padded
fixed-width form the log prefix always has; a shape or range mismatch,
which raises `ValueError` in Python, is `none` here. -/
def parse_log_time (time_str : String) : Option PyDateTime :=
  match time_str.data with
  | [d1, d2, m1, m2, m3, y1, y2, y3, y4, sp, h1, h2, c1, n1, n2, c2, s1, s2] => do
    let day ← twoDigits d1 d2
    let month ← monthNum (String.mk [m1, m2, m3])
    let year ← fourDigits y1 y2 y3 y4
    let hour ← twoDigits h1 h2
    let minute ← twoDigits n1 n2
    let second ← twoDigits s1 s2
    if sp = ' ' ∧ c1 = ':' ∧ c2 = ':' ∧ 1 ≤ day ∧ day ≤ 31 ∧ hour ≤ 23
        ∧ minute ≤ 59 ∧ second ≤ 59 then
      pure ⟨year, month, day, hour, minute, second⟩
    else
      none
  | _ => none

/-- Days from the civil epoch 1970-01-01 for a proleptic Gregorian date;
this is the arithmetic underlying Python `datetime` subtraction. -/
def daysFromCivil (y m d : Int) : Int :=
  let y2 := if m ≤ 2 then y - 1 else y
  let era := Int.fdiv y2 400
  let yoe := y2 - era * 400
  let mp := if m ≤ 2 then m + 9 else m - 3
  let doy := Int.fdiv (153 * mp + 2) 5 + d - 1
  let doe := yoe * 365 + Int.fdiv yoe 4 - Int.fdiv yoe 100 + doy
  era * 146097 + doe - 719468

/-- Total seconds of a naive `datetime`; the Python difference
`(b - a).total_seconds()` is `pyTimestamp b - pyTimestamp a`. -/
def pyTimestamp (dt : PyDateTime) : Int :=
  daysFromCivil dt.year dt.month dt.day * 86400
    + (dt.hour : Int) * 3600 + (dt.minute : Int) * 60 + (dt.second : Int)

def format_periods : List (String × Int) :=
  [("year", 60 * 60 * 24 * 365), ("month", 60 * 60 * 24 * 30),
   ("week", 60 * 60 * 24 * 7), ("day", 60 * 60 * 24),
   ("hour", 60 * 60), ("minute", 60), ("second", 1)]

/-- Embeds the period loop of `format_timedelta` (src/utils.py:79-83). -/
def format_timedelta_go : List (String × Int) → Int → String
  | [], _ => "0 seconds"
  | (period_name, period_seconds) :: rest, seconds =>
    if seconds ≥ period_seconds then
      let period_value := Int.fdiv seconds period_seconds
      toString period_value ++ " " ++ period_name
        ++ (if period_value > 1 then "s" else "")
    else
      format_timedelta_go rest seconds

/-- Embeds `format_timedelta(timedelta_obj)` (src/utils.py:68-83) on the
integral total seconds of the timedelta. -/
def format_timedelta (seconds : Int) : String :=
  format_timedelta_go format_periods seconds

/-! ## Player data update (src/app.py:192-224)

Embeds the JSON values manipulated by `update_players_data`: Python
dicts become ordered association lists (insertion order preserved,
assignment to an existing key updates in place). -/

inductive PVal where
  | s (v : String)
  | n (v : Int)
  | obj (fields : List (String × PVal))

/-- Embeds Python `d.get(key, default)` on a dict given as a field list. -/
def dictGetD (d : List (String × PVal)) (key : String) (default : PVal) : PVal :=
  match d with
  | [] => default
  | (k, v) :: rest => if k = key then v else dictGetD rest key default

/-- Embeds Python `d[key] = v`: updates the first binding in place or
appends a new one, preserving insertion order. -/
def dictSet (d : List (String × PVal)) (key : String) (v : PVal) :
    List (String × PVal) :=
  match d with
  | [] => [(key, v)]
  | (k, w) :: rest => if k = key then (key, v) :: rest else (k, w) :: dictSet rest key v

/-- Embeds `.get(key, default)` on a value expected to be a dict; the
claims only evaluate it on dict values. -/
def pvGetD (v : PVal) (key : String) (default : PVal) : PVal :=
  match v with
  | PVal.obj fields => dictGetD fields key default
  | _ => default

/-- Field list of a value expected to be a dict. -/
def pvFields (v : PVal) : List (String × PVal) :=
  match v with
  | PVal.obj fields => fields
  | _ => []

/-- Integer content of a value expected to be an int. -/
def pvInt (v : PVal) : Int :=
  match v with
  | PVal.n x => x
  | _ => 0

/-- Embeds `update_players_data(errors)` (src/app.py:192-224).
Inputs model the effects: `players_file` is the parsed content of
`data/players.json` as read by `read_json`, `now` the formatted
`datetime.now()`, `players` the outcome of `get_players` (uuid,
username pairs; `[]` is the falsy failure result) with the errors that
call appended, and `all_players_stats` the outcome of
`get_player_stats` (uuid to stats dict; `[]` on failure) with its
errors.  The result is the persisted file content after the call, the
local `players_data` dict at return (`none` on an early return), and
the entries appended to the caller's accumulator.  The source function
ends at a `# TODO: finish` comment without calling any write, so the
file content is returned unchanged on every path. -/
def update_players_data
    (players_file : List (String × PVal))
    (now : String)
    (players : List (String × String))
    (get_players_errors : List Err)
    (all_players_stats : List (String × PVal))
    (get_player_stats_errors : List Err) :
    List (String × PVal) × Option (List (String × PVal)) × List Err :=
  let players_data := players_file
  let old_players_data := dictGetD players_data "players" (PVal.obj [])
  let players_data := dictSet players_data "last_updated" (PVal.s now)
  match players with
  | [] =>
    (players_file, none,
      [Err.node "update_players_data" "Failed to get players data" get_players_errors])
  | _ :: _ =>
    let players_data := dictSet players_data "players" (PVal.obj [])
    match all_players_stats with
    | [] =>
      (players_file, none,
        [Err.node "update_players_data" "Failed to get player stats" get_player_stats_errors])
    | _ :: _ =>
      let newPlayers := players.foldl
        (fun inner p =>
          let player_data := pvFields (pvGetD old_players_data p.1 (PVal.obj []))
          let player_stats := dictGetD all_players_stats p.1 (PVal.obj [])
          let player_data := dictSet player_data "username" (PVal.s p.2)
          let playtime :=
            Int.fdiv (pvInt (pvGetD (pvGetD player_stats "minecraft:custom" (PVal.obj []))
              "minecraft:play_time" (PVal.n 0))) 20
          let player_data := dictSet player_data "playtime" (PVal.n playtime)
          dictSet inner p.1 (PVal.obj player_data)) []
      let players_data := dictSet players_data "players" (PVal.obj newPlayers)
      (players_file, some players_data, [])

/-! ## Mutable default accumulator (src/app.py:128, 155, 267, 329)

Embeds the CPython semantics of the parameter `errors: list=[]`: the
default list object is created once when the `def` statement runs and
is shared by every call that omits the argument, and `errors.append`
mutates that shared object.  The state below is the current content of
the default object bound to `get_players`. -/

structure DefaultAccState where
  get_players_default : List Err

/-- Embeds a call `get_players()` (no `errors` argument) whose ssh
command exits non-zero with the given stderr (src/app.py:145-147): the
call appends its error tuple to the shared default list and returns
`{}`.  The first component is the observable result (empty mapping and
the accumulator contents after the call), the second the new state of
the shared default object. -/
def get_players_ssh_failure (st : DefaultAccState) (stderr : String) :
    (List (String × String) × List Err) × DefaultAccState :=
  let errors := st.get_players_default
    ++ [Err.leaf "get_players" "SSH Command Error when reading usernames" stderr]
  (([], errors), ⟨errors⟩)

/-! ## Derived views of the scan used to state the temporal claims -/

/-- Text of a file as the scan sees it (`""` stands for a failed read,
which aborts the scan before any of it is consumed). -/
def readText (f : LogFile) : String :=
  match f.content with
  | Sum.inl _ => ""
  | Sum.inr t => t

/-- The flattened scan sequence: files in listing order, lines of each
file last-line-first — the order in which `search_string_in_logs`
visits lines. -/
def scanSeq (files : List LogFile) : List String :=
  (files.map fun f => (pySplitChar (readText f) '\n').reverse).flatten

/-- True when every file in the list is readable. -/
def allReadable (files : List LogFile) : Bool :=
  files.all fun f =>
    match f.content with
    | Sum.inr _ => true
    | Sum.inl _ => false

/-- Reference single-list scan with the break condition checked before
each line; `searchFiles` over readable files agrees with it on the
flattened scan sequence. -/
def flatScanPre (string : String) (k maxL : Int) :
    List String → List String × Int → List String × Int
  | [], st => st
  | line :: rest, st =>
    if stopCond k maxL st.1.length st.2 then st
    else
      let cnt' := st.2 + 1
      let matched' := if strContains line string then st.1 ++ [line] else st.1
      flatScanPre string k maxL rest (matched', cnt')

/-- True when a character run contains no brace characters. -/
def BraceFree (mid : List Char) : Prop :=
  ∀ c ∈ mid, c ≠ '{' ∧ c ≠ '}'

/-- A flat brace-delimited object: an opening brace, a brace-free
interior and a closing brace — the shape on which the depth scanner of
`extract_json_objects` recovers the object verbatim. -/
def FlatObj (o : String) : Prop :=
  ∃ mid, BraceFree mid ∧ o.data = '{' :: (mid ++ ['}'])

/-- The log environment of the end-to-end scenario of claim C1 exactly
as the spec words it: one file, no millisecond suffix in the bracket. -/
def envC1 : LogEnv :=
  ⟨Sum.inr [⟨"logs/latest.log",
    Sum.inr "[01Jan2024 10:00:00] Alice joined the game\n[01Jan2024 11:30:00] Alice left the game"⟩]⟩

/-- The same scenario with the millisecond suffix the fixed-offset
slice `[1:-4]` of `last_time_joined` is written for. -/
def envC1ms : LogEnv :=
  ⟨Sum.inr [⟨"logs/latest.log",
    Sum.inr "[01Jan2024 10:00:00.000] Alice joined the game\n[01Jan2024 11:30:00.000] Alice left the game"⟩]⟩

/-- A log set whose only file contains no line for the player (claim C4). -/
def envC4 : LogEnv :=
  ⟨Sum.inr [⟨"logs/latest.log",
    Sum.inr "[01Jan2024 10:00:00.000] Server thread started"⟩]⟩

/-- One file holding a previous-session left event, a join and a later
left event (claim C5 witness). -/
def filesC5 : List LogFile :=
  [⟨"logs/latest.log",
    Sum.inr "[01Jan2024 09:00:00.000] Alice left the game\n[01Jan2024 10:00:00.000] Alice joined the game\n[01Jan2024 11:30:00.000] Alice left the game"⟩]

/-- Small environment for the claim C7 witness. -/
def envC7 : LogEnv :=
  ⟨Sum.inr [⟨"logs/a.log", Sum.inr "x\ny\nz"⟩]⟩

/-- A readable file holding a match followed by an unreadable compressed
file (claim C8 witness). -/
def envC8 : LogEnv :=
  ⟨Sum.inr [⟨"logs/latest.log", Sum.inr "[01Jan2024 10:00:00.000] Alice joined the game"⟩,
            ⟨"logs/old.log.gz", Sum.inl "gzip: corrupt"⟩]⟩

/-- One file with a join event and no left event (claim C9 witness). -/
def envC9 : LogEnv :=
  ⟨Sum.inr [⟨"logs/latest.log", Sum.inr "[01Jan2024 10:00:00.000] Alice joined the game"⟩]⟩

/-! ## Theorems -/

/-- C1 counterexample: on the exact file of the spec scenario (no
millisecond suffix inside the bracket), `last_time_joined("Alice")`
does not return the full bracketed timestamps — the fixed-offset slice
`[1:-4]` chops the last four characters and yields
`("01Jan2024 10:0", "01Jan2024 11:3")`. -/
theorem C1_counterexample :
    (last_time_joined "Alice" envC1).1 ≠ ("01Jan2024 10:00:00", "01Jan2024 11:30:00") := by
  have h : (last_time_joined "Alice" envC1).1 = ("01Jan2024 10:0", "01Jan2024 11:3") := rfl
  rw [h]
  decide

/-- C1 amended: when the bracketed prefix carries the 3-digit
millisecond suffix the slice is written for
(`[01Jan2024 10:00:00.000] ...`), `last_time_joined("Alice")` returns
`("01Jan2024 10:00:00", "01Jan2024 11:30:00")` with no error recorded,
and `format_timedelta` applied to the difference of the two parsed
timestamps yields `"1 hour"`. -/
theorem C1_amended_holds :
    last_time_joined "Alice" envC1ms
      = (("01Jan2024 10:00:00", "01Jan2024 11:30:00"), []) ∧
    (do
      let a ← parse_log_time "01Jan2024 10:00:00"
      let b ← parse_log_time "01Jan2024 11:30:00"
      pure (format_timedelta (pyTimestamp b - pyTimestamp a)) : Option String)
      = some "1 hour" :=
  ⟨rfl, rfl⟩

/-- C2 counterexample: for the two-level tree with root
(origin="A", message="m1") and child leaf (origin="B", message="m2",
detail="d2"), `build_errors_string` does not indent the detail line two
levels — the detail of the child is rendered at the child's own
indentation, one tab, not two. -/
theorem C2_counterexample :
    build_errors_string [Err.node "A" "m1" [Err.leaf "B" "m2" "d2"]] 0
      ≠ "A: \"m1\"\n\tB: \"m2\"\n\t\td2\n" := by
  have h : build_errors_string [Err.node "A" "m1" [Err.leaf "B" "m2" "d2"]] 0
      = "A: \"m1\"\n\tB: \"m2\"\n\td2\n" := by
    simp only [build_errors_string]
    rfl
  rw [h]
  decide

/-- C2 amended: the rendering of that tree is exactly the line
`A: "m1"`, then `\tB: "m2"`, then `\td2` — children are rendered one
indent level deeper than their parent, while a node's string detail is
rendered at the node's own indentation. -/
theorem C2_amended_holds :
    build_errors_string [Err.node "A" "m1" [Err.leaf "B" "m2" "d2"]] 0
      = "A: \"m1\"\n\tB: \"m2\"\n\td2\n" := by
  simp only [build_errors_string]
  rfl

/-- C3: at a state where both fetches succeed, `update_players_data`
computes the merged mapping in memory — the fetched username and
playtime overwrite those fields while the unrecognized historical field
`"note"` survives — but the persisted file content is returned exactly
unchanged: the function ends at `# TODO: finish` without any write. -/
theorem C3_merge_without_writeback :
    update_players_data
      [("last_updated", PVal.s "2024-01-01 00:00:00"),
       ("players", PVal.obj [("u1", PVal.obj
         [("username", PVal.s "OldName"), ("playtime", PVal.n 5), ("note", PVal.s "vip")])])]
      "2026-10-12 00:00:00"
      [("u1", "Alice")] []
      [("u1", PVal.obj [("minecraft:custom", PVal.obj [("minecraft:play_time", PVal.n 1200)])])] []
    = ([("last_updated", PVal.s "2024-01-01 00:00:00"),
        ("players", PVal.obj [("u1", PVal.obj
          [("username", PVal.s "OldName"), ("playtime", PVal.n 5), ("note", PVal.s "vip")])])],
       some [("last_updated", PVal.s "2026-10-12 00:00:00"),
             ("players", PVal.obj [("u1", PVal.obj
               [("username", PVal.s "Alice"), ("playtime", PVal.n 60), ("note", PVal.s "vip")])])],
       []) := rfl

/-- C4 counterexample: when the search completes without transport
error but finds zero matching lines, `last_time_joined` does record an
entry in the caller-supplied accumulator (the "No joined pattern found"
tuple), refuting the claim that no ErrorNode is recorded. -/
theorem C4_counterexample : (last_time_joined "Alice" envC4).2 ≠ [] := by
  intro h
  have hlen : ((last_time_joined "Alice" envC4).2).length = 1 := rfl
  rw [h] at hlen
  simp at hlen

/-- C4 amended: a zero-match outcome returns the no-data sentinel pair
and additionally appends exactly one "No joined pattern found" entry to
the caller-supplied accumulator. -/
theorem C4_amended_holds :
    last_time_joined "Alice" envC4
      = (("No data", "No data"),
         [Err.leaf "last_time_joined" "No joined pattern found"
           "No log lines found with pattern: Alice joined the game"]) := rfl

/-- C6 counterexample: the input formed of the single well-formed
non-nested JSON object `{"a":"{"}` (a brace inside a string literal)
yields zero spans instead of the claimed one span — the scanner counts
braces with no awareness of string literals. -/
theorem C6_counterexample :
    extract_json_objects "\x7b\"a\":\"\x7b\"\x7d" ≠ ["\x7b\"a\":\"\x7b\"\x7d"] := by
  have h : extract_json_objects "\x7b\"a\":\"\x7b\"\x7d" = [] := rfl
  rw [h]
  decide

/-- C10: the `errors: list=[]` default of `get_players` is one shared
list object evaluated at definition time, so across two successive
failing calls made without an `errors` argument every entry observed by
the first call is already in the accumulator of the second, and two
calls with identical inputs observe different accumulators — the
observed errors are not a function of the call's inputs alone. -/
theorem C10_shared_default_accumulator (st : DefaultAccState) (s1 s2 : String) :
    (∀ e ∈ (get_players_ssh_failure st s1).1.2,
       e ∈ (get_players_ssh_failure (get_players_ssh_failure st s1).2 s2).1.2) ∧
    (s1 = s2 →
      (get_players_ssh_failure st s1).1.2
        ≠ (get_players_ssh_failure (get_players_ssh_failure st s1).2 s2).1.2) := by
  constructor
  · intro e he
    simp only [get_players_ssh_failure] at he ⊢
    simp only [List.append_assoc, List.mem_append] at he ⊢
    tauto
  · intro _ h
    have hlen := congrArg List.length h
    simp [get_players_ssh_failure] at hlen

/-- C10 witness: from a fresh default object, two identical failing
calls observe different accumulator contents. -/
theorem C10_witness :
    (get_players_ssh_failure ⟨[]⟩ "boom").1.2
      ≠ (get_players_ssh_failure (get_players_ssh_failure ⟨[]⟩ "boom").2 "boom").1.2 :=
  (C10_shared_default_accumulator ⟨[]⟩ "boom" "boom").2 rfl

/-- Facts extracted from a false break condition. -/
lemma stopCond_false {k maxL : Int} {len : Nat} {cnt : Int}
    (h : stopCond k maxL len cnt = false) :
    (0 ≤ k → (len : Int) < k) ∧ (0 ≤ maxL → cnt < maxL) := by
  simp only [stopCond, Bool.or_eq_false_iff, Bool.and_eq_false_iff,
    decide_eq_false_iff_not, Decidable.not_not, not_le] at h
  constructor <;> intro h0
  · rcases h.1 with h1 | h1 <;> omega
  · rcases h.2 with h1 | h1 <;> omega

/-- The inner line scan preserves the match-limit and line-budget bounds. -/
lemma scanFile_bounds (s : String) (k maxL : Int) (ls : List String) :
    ∀ (matched : List String) (cnt : Int),
      stopCond k maxL matched.length cnt = false →
      (0 ≤ k → ((scanFile s k maxL ls matched cnt).1.length : Int) ≤ k) ∧
      (0 ≤ maxL → (scanFile s k maxL ls matched cnt).2 ≤ maxL) := by
  induction ls with
  | nil =>
    intro matched cnt h
    have h' := stopCond_false h
    simp only [scanFile]
    exact ⟨fun h0 => le_of_lt (h'.1 h0), fun h0 => le_of_lt (h'.2 h0)⟩
  | cons line rest ih =>
    intro matched cnt h
    have h' := stopCond_false h
    simp only [scanFile]
    have hlen : (if strContains line s then matched ++ [line] else matched).length
        ≤ matched.length + 1 := by
      split <;> simp
    by_cases hs : stopCond k maxL
        (if strContains line s then matched ++ [line] else matched).length (cnt + 1) = true
    · rw [if_pos hs]
      dsimp only
      constructor
      · intro h0
        have h1 := h'.1 h0
        have h2 : ((if strContains line s then matched ++ [line] else matched).length : Int)
            ≤ (matched.length : Int) + 1 := by exact_mod_cast hlen
        omega
      · intro h0
        have h1 := h'.2 h0
        omega
    · rw [if_neg hs]
      exact ih _ _ (by simpa using hs)

/-- The outer file loop preserves the match-limit and line-budget bounds. -/
lemma searchFiles_bounds (s : String) (k maxL : Int) (files : List LogFile) :
    ∀ (matched : List String) (cnt : Int),
      (0 ≤ k → ((matched.length : Int)) ≤ k) → (0 ≤ maxL → cnt ≤ maxL) →
      (0 ≤ k → ((searchFiles s k maxL files matched cnt).1.1.length : Int) ≤ k) ∧
      (0 ≤ maxL → (searchFiles s k maxL files matched cnt).1.2 ≤ maxL) := by
  induction files with
  | nil =>
    intro matched cnt h1 h2
    simpa [searchFiles] using ⟨h1, h2⟩
  | cons f rest ih =>
    intro matched cnt h1 h2
    simp only [searchFiles]
    by_cases hstop : stopCond k maxL matched.length cnt = true
    · rw [if_pos hstop]
      exact ⟨h1, h2⟩
    · rw [if_neg hstop]
      have hsf : stopCond k maxL matched.length cnt = false := by simpa using hstop
      rcases hc : f.content with stderr | text
      · simp only [read_log_file, hc]
        refine ⟨fun h0 => ?_, fun h0 => ?_⟩
        · show ((0 : Nat) : Int) ≤ k
          exact_mod_cast h0
        · show (-1 : Int) ≤ maxL
          omega
      · simp only [read_log_file, hc]
        have hb := scanFile_bounds s k maxL ((pySplitChar text '\n').reverse) matched cnt hsf
        exact ih _ _ hb.1 hb.2

/-- C7: whenever the match limit `k` is a finite (non-negative) bound,
the matched-line list returned by `search_string_in_logs` has length at
most `k`, and whenever the line budget is finite the returned
scanned-line count is at most `max_search_lines` — on every path,
including the early-abort paths. -/
theorem C7_search_bounds (string : String) (k maxL : Int) (env : LogEnv) :
    (0 ≤ k → ((search_string_in_logs string k maxL env).1.1.length : Int) ≤ k) ∧
    (0 ≤ maxL → (search_string_in_logs string k maxL env).1.2 ≤ maxL) := by
  rcases env with ⟨listing⟩
  rcases listing with stderr | files
  · simp only [search_string_in_logs, list_log_files]
    refine ⟨fun h0 => ?_, fun h0 => ?_⟩
    · show ((0 : Nat) : Int) ≤ k
      exact_mod_cast h0
    · show (-1 : Int) ≤ maxL
      omega
  · cases files with
    | nil =>
      simp only [search_string_in_logs, list_log_files]
      refine ⟨fun h0 => ?_, fun h0 => ?_⟩
      · show ((0 : Nat) : Int) ≤ k
        exact_mod_cast h0
      · show (-1 : Int) ≤ maxL
        omega
    | cons f rest =>
      simp only [search_string_in_logs, list_log_files]
      exact searchFiles_bounds string k maxL (f :: rest) [] 0
        (by intro h0; simpa using h0) (by intro h0; simpa using h0)

/-- C7 witness: concrete bounds at `k = 1`, budget `2`. -/
theorem C7_witness :
    ((search_string_in_logs "y" 1 2 envC7).1.1.length : Int) ≤ 1 ∧
    (search_string_in_logs "y" 1 2 envC7).1.2 ≤ 2 :=
  ⟨(C7_search_bounds "y" 1 2 envC7).1 (by decide),
   (C7_search_bounds "y" 1 2 envC7).2 (by decide)⟩

/-- On every path of the file loop that records an error, the result
pair is `([], -1)`. -/
lemma searchFiles_err_discard (s : String) (k maxL : Int) (files : List LogFile) :
    ∀ (matched : List String) (cnt : Int),
      (searchFiles s k maxL files matched cnt).2 ≠ [] →
      (searchFiles s k maxL files matched cnt).1 = ([], -1) := by
  induction files with
  | nil =>
    intro matched cnt h
    simp [searchFiles] at h
  | cons f rest ih =>
    intro matched cnt h
    simp only [searchFiles] at h ⊢
    by_cases hstop : stopCond k maxL matched.length cnt = true
    · rw [if_pos hstop] at h ⊢
      simp at h
    · rw [if_neg hstop] at h ⊢
      rcases hc : f.content with stderr | text
      · simp only [read_log_file, hc] at h ⊢
      · simp only [read_log_file, hc] at h ⊢
        exact ih _ _ h

/-- With both limits unbounded, the file loop reaches every file, so an
unreadable member always makes the loop record an error. -/
lemma searchFiles_reaches_failure (s : String) (files : List LogFile) :
    ∀ (matched : List String) (cnt : Int) (f : LogFile) (stderr : String),
      f ∈ files → f.content = Sum.inl stderr →
      (searchFiles s (-1) (-1) files matched cnt).2 ≠ [] := by
  induction files with
  | nil =>
    intro _ _ _ _ h _
    simp at h
  | cons g rest ih =>
    intro matched cnt f stderr hmem hf
    have hstop : stopCond (-1) (-1) matched.length cnt = true → False := by
      simp [stopCond]
    simp only [searchFiles]
    rw [if_neg hstop]
    rcases hc : g.content with st2 | text
    · simp only [read_log_file, hc]
      simp
    · simp only [read_log_file, hc]
      rcases List.mem_cons.mp hmem with rfl | hmem'
      · rw [hc] at hf
        cases hf
      · exact ih _ _ f stderr hmem' hf

/-- C8: whenever `search_string_in_logs` records an error it returns
the empty match list with count `-1`, discarding all accumulated
matches; a failed listing always records an error; and with unbounded
limits an unreadable file in the listing always records an error. -/
theorem C8_abort_discards (string : String) (k maxL : Int) (env : LogEnv) :
    ((search_string_in_logs string k maxL env).2 ≠ [] →
      (search_string_in_logs string k maxL env).1 = ([], -1)) ∧
    (∀ stderr, env.listing = Sum.inl stderr →
      (search_string_in_logs string k maxL env).2 ≠ []) ∧
    (k = -1 → maxL = -1 →
      ∀ files f stderr, env.listing = Sum.inr files → f ∈ files →
        f.content = Sum.inl stderr →
        (search_string_in_logs string k maxL env).2 ≠ []) := by
  refine ⟨?_, ?_, ?_⟩
  · rcases env with ⟨listing⟩
    rcases listing with stderr | files
    · intro _
      rfl
    · cases files with
      | nil =>
        intro _
        rfl
      | cons f rest =>
        simp only [search_string_in_logs, list_log_files]
        exact searchFiles_err_discard string k maxL (f :: rest) [] 0
  · intro stderr h
    rcases env with ⟨listing⟩
    cases h
    simp [search_string_in_logs, list_log_files]
  · intro hk hm files f stderr hl hmem hf
    subst hk
    subst hm
    rcases env with ⟨listing⟩
    cases hl
    cases files with
    | nil => simp at hmem
    | cons g rest =>
      simp only [search_string_in_logs, list_log_files]
      exact searchFiles_reaches_failure string (g :: rest) [] 0 f stderr hmem hf

/-- C8 witness: a readable file holding a match followed by an
unreadable file — the error is recorded and the match from the first
file is discarded. -/
theorem C8_witness :
    (search_string_in_logs "Alice joined the game" (-1) (-1) envC8).1 = ([], -1) ∧
    (search_string_in_logs "Alice joined the game" (-1) (-1) envC8).2 ≠ [] := by
  have herr := (C8_abort_discards "Alice joined the game" (-1) (-1) envC8).2.2 rfl rfl
    [⟨"logs/latest.log", Sum.inr "[01Jan2024 10:00:00.000] Alice joined the game"⟩,
     ⟨"logs/old.log.gz", Sum.inl "gzip: corrupt"⟩]
    ⟨"logs/old.log.gz", Sum.inl "gzip: corrupt"⟩ "gzip: corrupt" rfl
    (List.mem_cons_of_mem _ (List.mem_cons_self _ _)) rfl
  exact ⟨(C8_abort_discards "Alice joined the game" (-1) (-1) envC8).1 herr, herr⟩

/-- C9: once a join line has been found (the `k = 1` joined search
returned one line and no error), the bounded left search determines the
second field: no match and no error yields
`(joinedTimestamp, "Still playing")`; a recorded error yields the
`"Error"` sentinel in the left field with the sliced joined timestamp
preserved, and the wrapped error is recorded in the accumulator. -/
theorem C9_left_outcomes (username : String) (env : LogEnv) (jl : String) (n : Int)
    (h1 : search_string_in_logs (username ++ " joined the game") 1 (-1) env
      = (([jl], n), [])) :
    ((search_string_in_logs (username ++ " left the game") 1 n env).2 = [] →
     (search_string_in_logs (username ++ " left the game") 1 n env).1.1 = [] →
     last_time_joined username env
       = ((sliceBracketTime ((pySplitChar jl ']').headD ""), "Still playing"), [])) ∧
    ((search_string_in_logs (username ++ " left the game") 1 n env).2 ≠ [] →
     (last_time_joined username env).1
       = (sliceBracketTime ((pySplitChar jl ']').headD ""), "Error") ∧
     (last_time_joined username env).2 ≠ []) := by
  constructor
  · intro herr hmatch
    rcases h2 : search_string_in_logs (username ++ " left the game") 1 n env
      with ⟨⟨ls, m⟩, errs⟩
    rw [h2] at herr hmatch
    simp only at herr hmatch
    subst herr
    subst hmatch
    simp only [last_time_joined, h1, h2]
  · intro herr
    rcases h2 : search_string_in_logs (username ++ " left the game") 1 n env
      with ⟨⟨ls, m⟩, errs⟩
    rw [h2] at herr
    simp only at herr
    cases errs with
    | nil => exact absurd rfl herr
    | cons e es =>
      constructor
      · simp only [last_time_joined, h1, h2]
      · simp only [last_time_joined, h1, h2]
        simp

/-- C9 witness: one file with a join event and no left event — the
result is the joined timestamp paired with the "Still playing"
sentinel. -/
theorem C9_witness :
    last_time_joined "Alice" envC9
      = (("01Jan2024 10:00:00", "Still playing"), []) :=
  (C9_left_outcomes "Alice" envC9
    "[01Jan2024 10:00:00.000] Alice joined the game" 1 rfl).1 rfl rfl

/-- Scanning a brace-free run only advances the index. -/
lemma ejoGo_skip (text : List Char) (mid : List Char) (hmid : BraceFree mid) :
    ∀ (rest : List Char) (i : Nat) (ob : Int) (start : Nat) (acc : List String),
      ejoGo text (mid ++ rest) i ob start acc
        = ejoGo text rest (i + mid.length) ob start acc := by
  induction mid with
  | nil =>
    intro rest i ob start acc
    simp
  | cons c cs ih =>
    intro rest i ob start acc
    have hc := hmid c (by simp)
    have hcs : BraceFree cs := fun x hx => hmid x (by simp [hx])
    simp only [List.cons_append, ejoGo, if_neg hc.1, if_neg hc.2, List.append_eq]
    rw [ih hcs]
    have he : i + (c :: cs).length = i + 1 + cs.length := by
      simp only [List.length_cons]
      omega
    rw [he]

/-- Scanning one flat object from depth 0 appends exactly its span and
returns to depth 0 behind it. -/
lemma ejoGo_close (text : List Char) (mid : List Char) (hmid : BraceFree mid)
    (rest : List Char) (i : Nat) (start : Nat) (acc : List String) :
    ejoGo text ('{' :: (mid ++ ('}' :: rest))) i 0 start acc
      = ejoGo text rest (i + mid.length + 2) 0 i
          (acc ++ [String.mk ((text.drop i).take (mid.length + 2))]) := by
  rw [show ejoGo text ('{' :: (mid ++ ('}' :: rest))) i 0 start acc
      = ejoGo text (mid ++ ('}' :: rest)) (i + 1) 1 i acc from by
    simp [ejoGo]]
  rw [ejoGo_skip text mid hmid]
  rw [show ejoGo text ('}' :: rest) (i + 1 + mid.length) 1 i acc
      = ejoGo text rest (i + 1 + mid.length + 1) 0 i
          (acc ++ [String.mk ((text.drop i).take (i + 1 + mid.length + 1 - i))]) from by
    simp [ejoGo]]
  have e2 : i + 1 + mid.length + 1 - i = mid.length + 2 := by omega
  rw [e2]
  have e1 : i + 1 + mid.length + 1 = i + mid.length + 2 := by omega
  rw [e1]

/-- Scanning the concatenation of flat objects followed by an optional
dangling open brace with a brace-free tail returns exactly the objects. -/
lemma ejoGo_concat (objs : List String) (hobjs : ∀ o ∈ objs, FlatObj o)
    (dang : List Char)
    (hd : dang = [] ∨ ∃ mid, BraceFree mid ∧ dang = '{' :: mid) :
    ∀ (text : List Char) (i start : Nat) (acc : List String),
      text.drop i = (objs.map String.data).flatten ++ dang →
      ejoGo text ((objs.map String.data).flatten ++ dang) i 0 start acc
        = acc ++ objs := by
  induction objs with
  | nil =>
    intro text i start acc hdrop
    rcases hd with rfl | ⟨mid, hmid, rfl⟩
    · simp [ejoGo]
    · simp only [List.map_nil, List.flatten_nil, List.nil_append, List.append_nil]
      rw [show ejoGo text ('{' :: mid) i 0 start acc
          = ejoGo text (mid ++ []) (i + 1) 1 i acc from by
        simp [ejoGo]]
      rw [ejoGo_skip text mid hmid]
      simp [ejoGo]
  | cons o objs ih =>
    intro text i start acc hdrop
    obtain ⟨mid, hmid, hodata⟩ := hobjs o (by simp)
    have hrec : ∀ o' ∈ objs, FlatObj o' := fun o' h => hobjs o' (by simp [h])
    have hshape : (((o :: objs).map String.data).flatten ++ dang)
        = '{' :: (mid ++ ('}' :: ((objs.map String.data).flatten ++ dang))) := by
      simp only [List.map_cons, List.flatten_cons, hodata, List.append_assoc,
        List.cons_append, List.singleton_append, List.nil_append]
    rw [hshape, ejoGo_close text mid hmid _ i start acc]
    have hlen : o.data.length = mid.length + 2 := by
      rw [hodata]
      simp
    have hslice : String.mk ((text.drop i).take (mid.length + 2)) = o := by
      rw [hdrop]
      simp only [List.map_cons, List.flatten_cons, List.append_assoc]
      rw [← hlen, List.take_append_of_le_length (by simp), List.take_length]
    have hdrop' : text.drop (i + mid.length + 2)
        = (objs.map String.data).flatten ++ dang := by
      rw [show i + mid.length + 2 = i + (mid.length + 2) from by omega,
        ← List.drop_drop, hdrop]
      simp only [List.map_cons, List.flatten_cons, List.append_assoc]
      rw [← hlen, List.drop_append_of_le_length (by simp)]
      simp
    rw [hslice, ih hrec text (i + mid.length + 2) i (acc ++ [o]) hdrop']
    simp

/-- C6 (amended): for flat objects — an opening brace, a brace-free
interior, a closing brace — `extract_json_objects` of their
concatenation returns exactly the objects in original order; the empty
input yields the empty list; and a trailing unterminated open brace
with a brace-free tail contributes no span. -/
theorem C6_flat_objects (objs : List String) (hobjs : ∀ o ∈ objs, FlatObj o)
    (dmid : List Char) (hdmid : BraceFree dmid) :
    extract_json_objects (String.mk (objs.map String.data).flatten) = objs ∧
    extract_json_objects (String.mk ((objs.map String.data).flatten ++ '{' :: dmid))
      = objs ∧
    extract_json_objects "" = [] := by
  refine ⟨?_, ?_, rfl⟩
  · have h := ejoGo_concat objs hobjs [] (Or.inl rfl)
      ((objs.map String.data).flatten) 0 0 []
    simp only [List.append_nil, List.drop_zero] at h
    exact h trivial
  · have h := ejoGo_concat objs hobjs ('{' :: dmid) (Or.inr ⟨dmid, hdmid, rfl⟩)
      ((objs.map String.data).flatten ++ '{' :: dmid) 0 0 []
    simp only [List.drop_zero] at h
    exact h trivial

/-- C6 witness: two flat objects followed by a dangling `{"b"` tail. -/
theorem C6_witness :
    extract_json_objects "\x7b\"a\":1\x7d\x7b\"b\":2\x7d"
      = ["\x7b\"a\":1\x7d", "\x7b\"b\":2\x7d"] ∧
    extract_json_objects "\x7b\"a\":1\x7d\x7b\"b\":2\x7d\x7b\"c\""
      = ["\x7b\"a\":1\x7d", "\x7b\"b\":2\x7d"] ∧
    extract_json_objects "" = [] := by
  have h := C6_flat_objects ["\x7b\"a\":1\x7d", "\x7b\"b\":2\x7d"]
    (by
      intro o ho
      simp only [List.mem_cons, List.not_mem_nil, or_false] at ho
      rcases ho with rfl | rfl
      · exact ⟨['"', 'a', '"', ':', '1'],
          by unfold BraceFree; decide, rfl⟩
      · exact ⟨['"', 'b', '"', ':', '2'],
          by unfold BraceFree; decide, rfl⟩)
    ['"', 'c', '"'] (by unfold BraceFree; decide)
  exact h

/-- A state meeting the break condition is returned unchanged by the
reference scan. -/
lemma flatScanPre_stop (s : String) (k maxL : Int) (ls : List String)
    (st : List String × Int)
    (h : stopCond k maxL st.1.length st.2 = true) :
    flatScanPre s k maxL ls st = st := by
  cases ls with
  | nil => rfl
  | cons l rest =>
    simp only [flatScanPre, if_pos h]

/-- The inner file scan agrees with the reference scan when entered
below the break condition. -/
lemma scanFile_eq_flat (s : String) (k maxL : Int) (ls : List String) :
    ∀ (matched : List String) (cnt : Int),
      stopCond k maxL matched.length cnt = false →
      scanFile s k maxL ls matched cnt = flatScanPre s k maxL ls (matched, cnt) := by
  induction ls with
  | nil =>
    intro matched cnt h
    rfl
  | cons line rest ih =>
    intro matched cnt h
    simp only [scanFile, flatScanPre, if_neg (by simp [h] : ¬stopCond k maxL matched.length cnt = true)]
    by_cases hs : stopCond k maxL
        (if strContains line s then matched ++ [line] else matched).length (cnt + 1) = true
    · rw [if_pos hs, flatScanPre_stop s k maxL rest _ hs]
    · rw [if_neg hs, ih _ _ (by simpa using hs)]

/-- The reference scan distributes over appending of line lists. -/
lemma flatScanPre_append (s : String) (k maxL : Int) (a : List String) :
    ∀ (b : List String) (st : List String × Int),
      flatScanPre s k maxL (a ++ b) st
        = flatScanPre s k maxL b (flatScanPre s k maxL a st) := by
  induction a with
  | nil =>
    intro b st
    rfl
  | cons x xs ih =>
    intro b st
    by_cases hs : stopCond k maxL st.1.length st.2 = true
    · rw [flatScanPre_stop s k maxL _ st hs,
        flatScanPre_stop s k maxL (x :: xs) st hs,
        flatScanPre_stop s k maxL b st hs]
    · have hsf : stopCond k maxL st.1.length st.2 = false := by simpa using hs
      simp only [List.cons_append, flatScanPre, if_neg hs]
      exact ih b _

/-- Over readable files the file loop records no error and computes the
reference scan of the flattened scan sequence. -/
lemma searchFiles_eq_flat (s : String) (k maxL : Int) (files : List LogFile) :
    ∀ (matched : List String) (cnt : Int),
      allReadable files = true →
      searchFiles s k maxL files matched cnt
        = (flatScanPre s k maxL (scanSeq files) (matched, cnt), []) := by
  induction files with
  | nil =>
    intro matched cnt _
    rfl
  | cons f rest ih =>
    intro matched cnt hread
    have hf : ∃ t, f.content = Sum.inr t := by
      simp only [allReadable, List.all_cons, Bool.and_eq_true] at hread
      rcases hc : f.content with st2 | t
      · rw [hc] at hread
        simp at hread
      · exact ⟨t, rfl⟩
    have hrest : allReadable rest = true := by
      simp only [allReadable, List.all_cons, Bool.and_eq_true] at hread
      exact hread.2
    obtain ⟨t, hc⟩ := hf
    have hseq : scanSeq (f :: rest)
        = (pySplitChar t '\n').reverse ++ scanSeq rest := by
      simp [scanSeq, readText, hc]
    by_cases hs : stopCond k maxL matched.length cnt = true
    · simp only [searchFiles, if_pos hs, hseq]
      rw [flatScanPre_stop s k maxL _ (matched, cnt) hs]
    · have hsf : stopCond k maxL matched.length cnt = false := by simpa using hs
      simp only [searchFiles, if_neg hs, read_log_file, hc]
      rw [scanFile_eq_flat s k maxL _ _ _ hsf, hseq, flatScanPre_append]
      exact ih _ _ hrest

/-- With `k = 1` and no line budget, a scan from a fresh match list that
returns `([l], n)` found `l` at position `n - cnt - 1` of the sequence,
`n` being the final counter. -/
lemma flatScanPre_k1_index (s : String) (seq : List String) :
    ∀ (cnt : Int) (l : String) (n : Int),
      flatScanPre s 1 (-1) seq ([], cnt) = ([l], n) →
      ∃ j : Nat, seq[j]? = some l ∧ n = cnt + (j : Int) + 1 := by
  induction seq with
  | nil =>
    intro cnt l n h
    simp only [flatScanPre, Prod.mk.injEq] at h
    exact absurd h.1 (by simp)
  | cons x xs ih =>
    intro cnt l n h
    have hsf : stopCond 1 (-1) 0 cnt = false := by
      simp [stopCond]
    rw [show flatScanPre s 1 (-1) (x :: xs) ([], cnt)
        = flatScanPre s 1 (-1) xs
            ((if strContains x s then [x] else []), cnt + 1) from by
      simp [flatScanPre, hsf]] at h
    by_cases hm : strContains x s = true
    · rw [if_pos hm] at h
      rw [flatScanPre_stop s 1 (-1) xs ([x], cnt + 1) (by simp [stopCond])] at h
      have h1 : x = l := by
        have hfst := congrArg Prod.fst h
        simpa using hfst
      have h2 : cnt + 1 = n := by
        have hsnd := congrArg Prod.snd h
        simpa using hsnd
      refine ⟨0, ?_, by omega⟩
      rw [← h1]
      exact List.getElem?_cons_zero
    · rw [if_neg hm] at h
      obtain ⟨j, hj, hn⟩ := ih (cnt + 1) l n h
      refine ⟨j + 1, ?_, by omega⟩
      simp only [List.getElem?_cons_succ]
      exact hj

/-- Every match produced by the reference scan under a finite line
budget lies in the corresponding prefix of the scan sequence. -/
lemma flatScanPre_mem_take (s : String) (k maxL : Int) (hmL : 0 ≤ maxL)
    (seq : List String) :
    ∀ (st : List String × Int) (l : String),
      l ∈ (flatScanPre s k maxL seq st).1 →
      l ∈ st.1 ∨ l ∈ seq.take (maxL - st.2).toNat := by
  induction seq with
  | nil =>
    intro st l h
    exact Or.inl h
  | cons x xs ih =>
    intro st l h
    by_cases hs : stopCond k maxL st.1.length st.2 = true
    · rw [flatScanPre_stop s k maxL _ st hs] at h
      exact Or.inl h
    · have hsf : stopCond k maxL st.1.length st.2 = false := by simpa using hs
      have hcnt : st.2 < maxL := (stopCond_false hsf).2 hmL
      rw [show flatScanPre s k maxL (x :: xs) st
          = flatScanPre s k maxL xs
              ((if strContains x s then st.1 ++ [x] else st.1), st.2 + 1) from by
        simp [flatScanPre, hs]] at h
      rcases ih _ l h with h1 | h1
      · by_cases hx : strContains x s = true
        · rw [if_pos hx] at h1
          rcases List.mem_append.mp h1 with h2 | h2
          · exact Or.inl h2
          · have hxl : l = x := by simpa using h2
            refine Or.inr ?_
            have hto : (maxL - st.2).toNat = ((maxL - st.2).toNat - 1) + 1 := by omega
            rw [hto, List.take_succ_cons, hxl]
            exact List.mem_cons_self _ _
        · rw [if_neg hx] at h1
          exact Or.inl h1
      · refine Or.inr ?_
        have h3 : (maxL - st.2).toNat = (maxL - (st.2 + 1)).toNat + 1 := by omega
        rw [h3, List.take_succ_cons]
        exact List.mem_cons_of_mem _ h1

/-- C5: over an unchanged readable file set, when the joined search
(`k = 1`, unbounded budget) returns line `jl` with scan count `n` and
the left search (`k = 1`, budget `n` — exactly how `last_time_joined`
issues it) returns line `ll`, then `last_time_joined` returns both
sliced timestamps, the join line sits at position `n - 1` of the scan
sequence, and the left line lies within the first `n` scanned lines —
it is never taken from a line scanned after (older than) the join
line. -/
theorem C5_left_within_join_budget (username : String) (files : List LogFile)
    (hread : allReadable files = true) (jl ll : String) (n m : Int)
    (h1 : search_string_in_logs (username ++ " joined the game") 1 (-1) ⟨Sum.inr files⟩
      = (([jl], n), []))
    (h2 : search_string_in_logs (username ++ " left the game") 1 n ⟨Sum.inr files⟩
      = (([ll], m), [])) :
    last_time_joined username ⟨Sum.inr files⟩
      = ((sliceBracketTime ((pySplitChar jl ']').headD ""),
          sliceBracketTime ((pySplitChar ll ']').headD "")), []) ∧
    1 ≤ n ∧
    (scanSeq files)[n.toNat - 1]? = some jl ∧
    ll ∈ (scanSeq files).take n.toNat := by
  have hlast : last_time_joined username ⟨Sum.inr files⟩
      = ((sliceBracketTime ((pySplitChar jl ']').headD ""),
          sliceBracketTime ((pySplitChar ll ']').headD "")), []) := by
    simp only [last_time_joined, h1, h2]
  cases files with
  | nil =>
    exfalso
    have hsnd := congrArg Prod.snd h1
    simp [search_string_in_logs, list_log_files] at hsnd
  | cons f rest =>
    simp only [search_string_in_logs, list_log_files] at h1 h2
    rw [searchFiles_eq_flat _ _ _ (f :: rest) [] 0 hread] at h1 h2
    have hflat1 := congrArg Prod.fst h1
    have hflat2 := congrArg Prod.fst h2
    simp only at hflat1 hflat2
    obtain ⟨j, hj, hn⟩ := flatScanPre_k1_index _ (scanSeq (f :: rest)) 0 jl n hflat1
    have hn1 : 1 ≤ n := by omega
    have hmem : ll ∈ (flatScanPre (username ++ " left the game") 1 n
        (scanSeq (f :: rest)) ([], 0)).1 := by
      rw [hflat2]
      simp
    rcases flatScanPre_mem_take _ 1 n (by omega) (scanSeq (f :: rest))
        ([], 0) ll hmem with habs | htake
    · simp at habs
    · refine ⟨hlast, hn1, ?_, ?_⟩
      · have hidx : n.toNat - 1 = j := by omega
        rw [hidx]
        exact hj
      · have hsub : (n - 0).toNat = n.toNat := by omega
        rw [hsub] at htake
        exact htake

/-- C5 witness: a previous-session left event, the join, and a later
left event in one file — the left line returned lies within the first
two scanned lines, at or before the join line's position. -/
theorem C5_witness :
    last_time_joined "Alice" ⟨Sum.inr filesC5⟩
      = (("01Jan2024 10:00:00", "01Jan2024 11:30:00"), []) ∧
    1 ≤ (2 : Int) ∧
    (scanSeq filesC5)[(2 : Int).toNat - 1]?
      = some "[01Jan2024 10:00:00.000] Alice joined the game" ∧
    "[01Jan2024 11:30:00.000] Alice left the game"
      ∈ (scanSeq filesC5).take (2 : Int).toNat :=
  C5_left_within_join_budget "Alice" filesC5 rfl
    "[01Jan2024 10:00:00.000] Alice joined the game"
    "[01Jan2024 11:30:00.000] Alice left the game" 2 1 rfl rfl
